import Mathlib

/-!
Verification of the puzzle state machine and completion/scoring logic of the
heritage-quest jigsaw application.  The definitions below are a shallow
embedding of the source: `PuzzlePiece` mirrors the `PuzzlePiece` interface,
`GameState` the component-local state of `PuzzleGame`, and `World` adds the
external observables (the remote `game_progress` table and the toast
notifications).  Functions keep the source names: `initializePuzzle`,
`handleDragStart`, `handleDrop`, `checkGameCompletion`, `saveGameResult`,
`fetchUserStats`.
-/

/-- One puzzle piece, mirroring the `PuzzlePiece` interface of the source:
`id`, `correctPosition`, `currentPosition` (-1 means staging area), `isPlaced`. -/
structure PuzzlePiece where
  id : Nat
  correctPosition : Nat
  currentPosition : Int
  isPlaced : Bool
  deriving DecidableEq, Repr

/-- The component-local state of `PuzzleGame`: the piece list, the transient
dragged-piece marker, the completion flag and the recorded completion time.
The initial (mount) values are `[]`, `null`, `false`, `null`. -/
structure GameState where
  pieces : List PuzzlePiece
  draggedPiece : Option Nat
  gameCompleted : Bool
  completionTime : Option Nat
  deriving DecidableEq, Repr

/-- One row of the remote `game_progress` table.  Fields are optional because
the dashboard code defends against null columns with truthiness checks. -/
structure GameRecord where
  user_id : String
  level_id : String
  completed_at : Option String
  time_taken : Option Nat
  score : Option Int
  deriving DecidableEq, Repr

/-- The aggregated statistics object computed by `fetchUserStats`. -/
structure UserStats where
  puzzles_completed : Nat
  total_score : Int
  best_time : Option Nat
  deriving DecidableEq, Repr

/-- Local game state together with the external observables of a session:
identity/level props, the remote result table and the toast notifications. -/
structure World where
  game : GameState
  userId : String
  levelId : String
  levelName : String
  db : List GameRecord
  toasts : List String
  deriving DecidableEq, Repr

/-- `initializePuzzle`: build `level.pieces` pieces with
`id = correctPosition = i`, `currentPosition = -1`, `isPlaced = false`.
The source then shuffles with a randomized sort; the shuffle is modelled as an
arbitrary permutation of this list in the theorems. -/
def initializePuzzle (n : Nat) : List PuzzlePiece :=
  (List.range n).map fun i =>
    { id := i, correctPosition := i, currentPosition := -1, isPlaced := false }

/-- `handleDragStart`: record the dragged piece id. -/
def handleDragStart (g : GameState) (pieceId : Nat) : GameState :=
  { g with draggedPiece := some pieceId }

/-- Index of the first element satisfying the predicate, the semantics of
JavaScript `Array.prototype.findIndex` (and of `find`, which yields the same
element). -/
def findIdxO (p : α → Bool) : List α → Option Nat
  | [] => none
  | a :: l => if p a then some 0 else (findIdxO p l).map (· + 1)

/-- Replace the element at an index by the image under `f`; out-of-range
indices leave the list unchanged.  Models in-place mutation of one element of
the copied array in `handleDrop`. -/
def modifyIdx : List α → Nat → (α → α) → List α
  | [], _, _ => []
  | a :: l, 0, f => f a :: l
  | a :: l, n + 1, f => a :: modifyIdx l n f

/-- Eviction of a slot occupant: `currentPosition = -1`, `isPlaced = false`. -/
def evictPiece (p : PuzzlePiece) : PuzzlePiece :=
  { p with currentPosition := -1, isPlaced := false }

/-- Placement of the dragged piece: `currentPosition = target`,
`isPlaced = true`. -/
def placePiece (target : Int) (p : PuzzlePiece) : PuzzlePiece :=
  { p with currentPosition := target, isPlaced := true }

/-- `handleDrop`: no-op when nothing is dragged; otherwise locate the dragged
piece by id, evict the first occupant of the target position if any, place the
dragged piece at the target, and clear the drag marker. -/
def handleDrop (g : GameState) (targetPosition : Int) : GameState :=
  match g.draggedPiece with
  | none => g
  | some dragged =>
    let ps := g.pieces
    let newPieces :=
      match findIdxO (fun p => p.id == dragged) ps with
      | none => ps
      | some pieceIndex =>
        let afterEvict :=
          match findIdxO (fun p => p.currentPosition == targetPosition) ps with
          | none => ps
          | some occIdx => modifyIdx ps occIdx evictPiece
        modifyIdx afterEvict pieceIndex (placePiece targetPosition)
    { g with pieces := newPieces, draggedPiece := none }

/-- `score = Math.max(1000 - timeTaken, 100)` from `saveGameResult`. -/
def computeScore (timeTaken : Nat) : Int :=
  max (1000 - (timeTaken : Int)) 100

/-- The row inserted into `game_progress` by `saveGameResult`. -/
def resultRecord (userId levelId nowIso : String) (timeTaken : Nat) : GameRecord :=
  { user_id := userId, level_id := levelId, completed_at := some nowIso,
    time_taken := some timeTaken, score := some (computeScore timeTaken) }

/-- `saveGameResult`: attempt one insert of the result row.  On success the
row is appended to the store; on failure the only effect is a destructive
toast — the local game state is untouched in both branches and no retry is
made. -/
def saveGameResult (w : World) (nowIso : String) (timeTaken : Nat) (insertOk : Bool) : World :=
  if insertOk then
    { w with db := w.db ++ [resultRecord w.userId w.levelId nowIso timeTaken] }
  else
    { w with toasts := w.toasts ++ ["Failed to save your progress"] }

/-- `pieces.every(piece => piece.isPlaced && piece.currentPosition === piece.correctPosition)`. -/
def allPlaced (ps : List PuzzlePiece) : Bool :=
  ps.all fun p => p.isPlaced && (p.currentPosition == (p.correctPosition : Int))

/-- The congratulation toast shown on completion. -/
def successToast (levelName : String) (timeTaken : Nat) : String :=
  "You completed " ++ levelName ++ " in " ++ toString timeTaken ++ " seconds!"

/-- `checkGameCompletion`, run by the effect after every `pieces` update:
when every piece is placed correctly and the session is not yet completed,
record the completion time, set the completed flag, attempt to save the
result, and toast.  Otherwise do nothing.  `timeTaken` stands for the
elapsed-seconds computation from `Date.now()` and `nowIso` for the insert
timestamp. -/
def checkGameCompletion (w : World) (timeTaken : Nat) (nowIso : String) (insertOk : Bool) : World :=
  if allPlaced w.game.pieces && !w.game.gameCompleted then
    let g := { w.game with completionTime := some timeTaken, gameCompleted := true }
    let w1 := saveGameResult { w with game := g } nowIso timeTaken insertOk
    { w1 with toasts := w1.toasts ++ [successToast w.levelName timeTaken] }
  else w

/-- The world at component mount: empty piece list (the `useState([])`
initial value), nothing dragged, not completed, empty store and no toasts. -/
def mountWorld (userId levelId levelName : String) : World :=
  { game := { pieces := [], draggedPiece := none, gameCompleted := false, completionTime := none },
    userId := userId, levelId := levelId, levelName := levelName, db := [], toasts := [] }

/-- The user interactions of a running session.  A drop is always followed by
the completion check, because `handleDrop` calls `setPieces` and the check
effect is keyed on `pieces`; a drag start leaves `pieces` untouched and runs
no check. -/
inductive GameEvent where
  | dragStart (pieceId : Nat)
  | drop (target : Int) (timeTaken : Nat) (nowIso : String) (insertOk : Bool)
  deriving DecidableEq, Repr

/-- One interaction step of the session. -/
def stepW (w : World) : GameEvent → World
  | .dragStart pid => { w with game := handleDragStart w.game pid }
  | .drop target t iso ok =>
    checkGameCompletion { w with game := handleDrop w.game target } t iso ok

/-- Run a sequence of interactions. -/
def runEvents (w : World) (es : List GameEvent) : World :=
  es.foldl stepW w

/-- JavaScript truthiness of a nullable string column (`null` and the empty
string are falsy). -/
def strTruthy : Option String → Bool
  | none => false
  | some s => !(s == "")

/-- JavaScript truthiness of a nullable numeric column (`null` and `0` are
falsy). -/
def natTruthy : Option Nat → Bool
  | none => false
  | some t => t != 0

/-- Minimum of two optional numbers, `none` acting as `Infinity`. -/
def optMin : Option Nat → Option Nat → Option Nat
  | none, b => b
  | some a, none => some a
  | some a, some b => some (min a b)

/-- Minimum of a list of numbers, `none` when the list is empty. -/
def minOfList (l : List Nat) : Option Nat :=
  l.foldr (fun t m => optMin (some t) m) none

/-- The `bestTime` reduction of `fetchUserStats`:
`data.filter(r => r.time_taken).reduce((min, r) => Math.min(min, r.time_taken), Infinity)`,
with `Infinity` represented by `none` (the source maps `Infinity` back to
`null` afterwards). -/
def bestTimeFold (data : List GameRecord) : Option Nat :=
  (data.filter fun r => natTruthy r.time_taken).foldl
    (fun m r =>
      match r.time_taken with
      | some t => optMin m (some t)
      | none => m)
    none

/-- `fetchUserStats` of the dashboard, as a pure function of the rows already
filtered to the user: with at least one row, count the rows with a truthy
`completed_at`, sum `score || 0`, and take the truthy-time minimum; with no
rows, return the all-zero stats. -/
def fetchUserStats (data : List GameRecord) : UserStats :=
  if data.length > 0 then
    { puzzles_completed := (data.filter fun r => strTruthy r.completed_at).length,
      total_score := data.foldl (fun s r => s + r.score.getD 0) 0,
      best_time := bestTimeFold data }
  else
    { puzzles_completed := 0, total_score := 0, best_time := none }

/-- Spec-side definition, following the words of the specification: the
minimum `elapsedSeconds` across the Results that carry a time value, `none`
when there are none.  Used to compare against `fetchUserStats`. -/
def specBestTime (data : List GameRecord) : Option Nat :=
  minOfList (data.filterMap fun r => r.time_taken)

/-- The amended best-time aggregate: the minimum across the Results with a
nonzero time value, `none` when there are none. -/
def specBestTimeNonzero (data : List GameRecord) : Option Nat :=
  minOfList ((data.filterMap fun r => r.time_taken).filter fun t => t != 0)

/-- Slot uniqueness: no two distinct list positions hold pieces sharing a
non-negative `currentPosition` (at most one piece per board slot). -/
def slotUnique (ps : List PuzzlePiece) : Prop :=
  ∀ (i j : Nat) (pi pj : PuzzlePiece), i ≠ j → ps[i]? = some pi → ps[j]? = some pj →
    pi.currentPosition = pj.currentPosition → pi.currentPosition < 0

/-- A one-piece board with the piece placed on its correct slot: the
completion predicate holds and the session is not yet completed. -/
def sampleDone : World :=
  { game := { pieces := [{ id := 0, correctPosition := 0, currentPosition := 0, isPlaced := true }],
              draggedPiece := none, gameCompleted := false, completionTime := none },
    userId := "u", levelId := "ha-long-bay", levelName := "Ha Long Bay", db := [], toasts := [] }

/-- A two-piece state: piece 0 is dragged from the staging area, piece 1
occupies slot 2. -/
def sampleDropState : GameState :=
  { pieces := [{ id := 0, correctPosition := 0, currentPosition := -1, isPlaced := false },
               { id := 1, correctPosition := 1, currentPosition := 2, isPlaced := true }],
    draggedPiece := some 0, gameCompleted := false, completionTime := none }

/-- A one-piece state where the dragged piece already occupies slot 5. -/
def sampleSelfDrop : GameState :=
  { pieces := [{ id := 0, correctPosition := 0, currentPosition := 5, isPlaced := true }],
    draggedPiece := some 0, gameCompleted := false, completionTime := none }

/-- A freshly initialized two-piece session. -/
def sampleInitWorld : World :=
  { game := { pieces := initializePuzzle 2, draggedPiece := none,
              gameCompleted := false, completionTime := none },
    userId := "u", levelId := "hoi-an", levelName := "Hoi An", db := [], toasts := [] }

/-- A persisted Result of a session completed in zero seconds. -/
def cexRecord : GameRecord :=
  { user_id := "u", level_id := "ha-long-bay", completed_at := some "2024-01-01T00:00:00Z",
    time_taken := some 0, score := some 1000 }

/-- Two persisted Results with times 120 and 90 seconds. -/
def sampleRecords : List GameRecord :=
  [{ user_id := "u", level_id := "ha-long-bay", completed_at := some "2024-01-01T00:00:00Z",
     time_taken := some 120, score := some 880 },
   { user_id := "u", level_id := "hoi-an", completed_at := some "2024-01-02T00:00:00Z",
     time_taken := some 90, score := some 910 }]

/-! ### Basic lemmas about the list helpers -/

theorem modifyIdx_length (l : List α) (n : Nat) (f : α → α) :
    (modifyIdx l n f).length = l.length := by
  induction l generalizing n with
  | nil => rfl
  | cons a t ih =>
    cases n with
    | zero => rfl
    | succ n => simpa [modifyIdx] using ih n

theorem getElemQ_modifyIdx (l : List α) (n k : Nat) (f : α → α) :
    (modifyIdx l n f)[k]? = if k = n then (l[k]?).map f else l[k]? := by
  induction l generalizing n k with
  | nil => simp [modifyIdx]
  | cons a t ih =>
    cases n with
    | zero =>
      cases k with
      | zero => simp [modifyIdx]
      | succ k => simp [modifyIdx]
    | succ n =>
      cases k with
      | zero => simp [modifyIdx]
      | succ k => simpa [modifyIdx] using ih n k

theorem mem_of_getElemQ (l : List α) (k : Nat) (a : α) (h : l[k]? = some a) : a ∈ l := by
  induction l generalizing k with
  | nil => simp at h
  | cons b t ih =>
    cases k with
    | zero => simp_all
    | succ k => exact List.mem_cons_of_mem _ (ih k (by simpa using h))

theorem findIdxO_some (p : α → Bool) (l : List α) (i : Nat) (h : findIdxO p l = some i) :
    ∃ a, l[i]? = some a ∧ p a = true := by
  induction l generalizing i with
  | nil => simp [findIdxO] at h
  | cons a t ih =>
    by_cases hpa : p a
    · simp [findIdxO, hpa] at h
      exact ⟨a, by simp [← h], hpa⟩
    · simp [findIdxO, hpa, Option.map_eq_some'] at h
      obtain ⟨j, hj, rfl⟩ := h
      obtain ⟨b, hb, hpb⟩ := ih j hj
      exact ⟨b, by simpa using hb, hpb⟩

theorem findIdxO_none (p : α → Bool) (l : List α) (h : findIdxO p l = none) :
    ∀ x ∈ l, p x = false := by
  induction l with
  | nil => simp
  | cons a t ih =>
    by_cases hpa : p a
    · simp [findIdxO, hpa] at h
    · simp [findIdxO, hpa] at h
      intro x hx
      rcases List.mem_cons.mp hx with rfl | hx
      · simpa using hpa
      · exact ih h x hx

/-! ### Characterization of handleDrop -/

theorem handleDrop_none (g : GameState) (target : Int) (hd : g.draggedPiece = none) :
    handleDrop g target = g := by
  simp [handleDrop, hd]

theorem handleDrop_noPiece (g : GameState) (d : Nat) (target : Int)
    (hd : g.draggedPiece = some d)
    (hi : findIdxO (fun p => p.id == d) g.pieces = none) :
    handleDrop g target = { g with draggedPiece := none } := by
  simp [handleDrop, hd, hi]

theorem handleDrop_noOcc (g : GameState) (d : Nat) (target : Int) (i : Nat)
    (hd : g.draggedPiece = some d)
    (hi : findIdxO (fun p => p.id == d) g.pieces = some i)
    (hj : findIdxO (fun p => p.currentPosition == target) g.pieces = none) :
    handleDrop g target =
      { g with pieces := modifyIdx g.pieces i (placePiece target), draggedPiece := none } := by
  simp [handleDrop, hd, hi, hj]

theorem handleDrop_occ (g : GameState) (d : Nat) (target : Int) (i j : Nat)
    (hd : g.draggedPiece = some d)
    (hi : findIdxO (fun p => p.id == d) g.pieces = some i)
    (hj : findIdxO (fun p => p.currentPosition == target) g.pieces = some j) :
    handleDrop g target =
      { g with pieces := modifyIdx (modifyIdx g.pieces j evictPiece) i (placePiece target),
               draggedPiece := none } := by
  simp [handleDrop, hd, hi, hj]

theorem handleDrop_occ_getQ (g : GameState) (d : Nat) (target : Int) (i j : Nat)
    (hd : g.draggedPiece = some d)
    (hi : findIdxO (fun p => p.id == d) g.pieces = some i)
    (hj : findIdxO (fun p => p.currentPosition == target) g.pieces = some j) (k : Nat) :
    ((handleDrop g target).pieces)[k]? =
      if k = i then
        ((if k = j then (g.pieces)[k]?.map evictPiece else (g.pieces)[k]?).map (placePiece target))
      else if k = j then (g.pieces)[k]?.map evictPiece
      else (g.pieces)[k]? := by
  rw [handleDrop_occ g d target i j hd hi hj]
  simp only [getElemQ_modifyIdx]

theorem handleDrop_gameCompleted (g : GameState) (target : Int) :
    (handleDrop g target).gameCompleted = g.gameCompleted := by
  unfold handleDrop
  cases g.draggedPiece <;> rfl

/-! ### State-machine helper lemmas -/

theorem checkGameCompletion_completed (w : World) (t : Nat) (iso : String) (ok : Bool)
    (h : w.game.gameCompleted = true) :
    checkGameCompletion w t iso ok = w := by
  simp [checkGameCompletion, h]

theorem checkGameCompletion_pieces (w : World) (t : Nat) (iso : String) (ok : Bool) :
    (checkGameCompletion w t iso ok).game.pieces = w.game.pieces := by
  unfold checkGameCompletion saveGameResult
  split
  · split <;> rfl
  · rfl

theorem checkGameCompletion_fires (w : World) (t : Nat) (iso : String) (ok : Bool)
    (hall : allPlaced w.game.pieces = true) (hnc : w.game.gameCompleted = false) :
    checkGameCompletion w t iso ok =
      { saveGameResult
          { w with game :=
              { w.game with completionTime := some t, gameCompleted := true } } iso t ok
        with toasts :=
          (saveGameResult
            { w with game :=
                { w.game with completionTime := some t, gameCompleted := true } } iso t ok).toasts
          ++ [successToast w.levelName t] } := by
  simp [checkGameCompletion, hall, hnc]

theorem stepW_completed (w : World) (e : GameEvent) (h : w.game.gameCompleted = true) :
    (stepW w e).game.gameCompleted = true ∧ (stepW w e).db = w.db := by
  cases e with
  | dragStart pid => exact ⟨h, rfl⟩
  | drop target t iso ok =>
    have hc : ({ w with game := handleDrop w.game target } : World).game.gameCompleted = true := by
      simpa [handleDrop_gameCompleted] using h
    rw [stepW, checkGameCompletion_completed _ _ _ _ hc]
    exact ⟨hc, rfl⟩

theorem runEvents_completed (w : World) (es : List GameEvent) (h : w.game.gameCompleted = true) :
    (runEvents w es).game.gameCompleted = true ∧ (runEvents w es).db = w.db := by
  induction es generalizing w with
  | nil => exact ⟨h, rfl⟩
  | cons e es ih =>
    obtain ⟨h1, h2⟩ := stepW_completed w e h
    obtain ⟨h3, h4⟩ := ih (stepW w e) h1
    exact ⟨h3, by rw [runEvents] at h4 ⊢; simpa [h2] using h4⟩

/-! ### Slot uniqueness -/

theorem slotUnique_of_allNeg (ps : List PuzzlePiece)
    (h : ∀ p ∈ ps, p.currentPosition < 0) : slotUnique ps := by
  intro i j pi pj _ hi _ _
  exact h pi (mem_of_getElemQ ps i pi hi)

theorem slotUnique_init_perm (n : Nat) (l : List PuzzlePiece)
    (hl : l.Perm (initializePuzzle n)) : slotUnique l := by
  apply slotUnique_of_allNeg
  intro p hp
  have hp2 : p ∈ initializePuzzle n := hl.mem_iff.mp hp
  simp only [initializePuzzle, List.mem_map, List.mem_range] at hp2
  obtain ⟨i, _, rfl⟩ := hp2
  norm_num

theorem slotUnique_handleDrop (g : GameState) (target : Int)
    (h : slotUnique g.pieces) : slotUnique ((handleDrop g target).pieces) := by
  cases hd : g.draggedPiece with
  | none => rw [handleDrop_none g target hd]; exact h
  | some d =>
    cases hi : findIdxO (fun p => p.id == d) g.pieces with
    | none => rw [handleDrop_noPiece g d target hd hi]; exact h
    | some i =>
      cases hj : findIdxO (fun p => p.currentPosition == target) g.pieces with
      | none =>
        -- no occupant of the target: only the dragged piece moves, to a
        -- position no other piece holds
        have hno : ∀ x ∈ g.pieces, (x.currentPosition == target) = false :=
          findIdxO_none _ _ hj
        rw [handleDrop_noOcc g d target i hd hi hj]
        intro a b pa pb hab ha hb heq
        simp only [getElemQ_modifyIdx] at ha hb
        by_cases hai : a = i
        · rw [if_pos hai] at ha
          obtain ⟨pa0, hpa0, rfl⟩ := Option.map_eq_some'.mp ha
          have hbi : ¬ b = i := fun hc => hab ((hai.trans hc.symm))
          rw [if_neg hbi] at hb
          have : (pb.currentPosition == target) = false :=
            hno pb (mem_of_getElemQ _ _ _ hb)
          simp only [placePiece] at heq
          simp [← heq] at this
        · rw [if_neg hai] at ha
          by_cases hbi : b = i
          · rw [if_pos hbi] at hb
            obtain ⟨pb0, hpb0, rfl⟩ := Option.map_eq_some'.mp hb
            have : (pa.currentPosition == target) = false :=
              hno pa (mem_of_getElemQ _ _ _ ha)
            simp only [placePiece] at heq
            simp [heq] at this
          · rw [if_neg hbi] at hb
            exact h a b pa pb hab ha hb heq
      | some j =>
        -- an occupant exists at index j; it is evicted and the dragged piece
        -- takes the target
        obtain ⟨pj0, hpj0, hpj0t⟩ := findIdxO_some _ _ _ hj
        have hpj0t : pj0.currentPosition = target := by simpa using hpj0t
        intro a b pa pb hab ha hb heq
        rw [handleDrop_occ_getQ g d target i j hd hi hj] at ha hb
        by_cases hai : a = i
        · -- the dragged piece: sits at `target` after the drop
          rw [if_pos hai] at ha
          obtain ⟨pa1, hpa1, rfl⟩ := Option.map_eq_some'.mp ha
          simp only [placePiece] at heq ⊢
          have hbi : ¬ b = i := fun hc => hab (hai.trans hc.symm)
          rw [if_neg hbi] at hb
          by_cases hbj : b = j
          · -- the other piece is the evicted occupant, now at -1
            rw [if_pos hbj] at hb
            obtain ⟨pb0, _, rfl⟩ := Option.map_eq_some'.mp hb
            simp only [evictPiece] at heq
            omega
          · -- any third piece kept its old position, which cannot be the
            -- target: the occupant at j already held it
            rw [if_neg hbj] at hb
            have := h b j pb pj0 hbj hb hpj0 (by omega)
            omega
        · by_cases haj : a = j
          · -- the evicted occupant: now at -1 < 0
            rw [if_neg hai, if_pos haj] at ha
            obtain ⟨pa0, _, rfl⟩ := Option.map_eq_some'.mp ha
            simp [evictPiece]
          · -- a piece untouched by the drop
            rw [if_neg hai, if_neg haj] at ha
            by_cases hbi : b = i
            · rw [if_pos hbi] at hb
              obtain ⟨pb1, hpb1, rfl⟩ := Option.map_eq_some'.mp hb
              simp only [placePiece] at heq
              have := h a j pa pj0 haj ha hpj0 (by omega)
              omega
            · by_cases hbj : b = j
              · rw [if_neg hbi, if_pos hbj] at hb
                obtain ⟨pb0, _, rfl⟩ := Option.map_eq_some'.mp hb
                simp only [evictPiece] at heq
                omega
              · rw [if_neg hbi, if_neg hbj] at hb
                exact h a b pa pb hab ha hb heq

theorem slotUnique_runEvents (w : World) (es : List GameEvent)
    (h : slotUnique w.game.pieces) : slotUnique ((runEvents w es).game.pieces) := by
  induction es generalizing w with
  | nil => exact h
  | cons e es ih =>
    have hstep : slotUnique ((stepW w e).game.pieces) := by
      cases e with
      | dragStart pid => exact h
      | drop target t iso ok =>
        rw [stepW, checkGameCompletion_pieces]
        exact slotUnique_handleDrop _ _ h
    exact ih (stepW w e) hstep

/-! ### Aggregation lemmas for fetchUserStats -/

theorem foldl_score_sum (data : List GameRecord) (a : Int) :
    data.foldl (fun s r => s + r.score.getD 0) a
      = a + (data.map fun r => r.score.getD 0).sum := by
  induction data generalizing a with
  | nil => simp
  | cons r t ih =>
    simp only [List.foldl_cons, List.map_cons, List.sum_cons, ih (a + r.score.getD 0)]
    ring

theorem optMin_assoc (a b c : Option Nat) :
    optMin (optMin a b) c = optMin a (optMin b c) := by
  cases a <;> cases b <;> cases c <;> simp [optMin, Nat.min_assoc]

theorem minOfList_cons (t : Nat) (l : List Nat) :
    minOfList (t :: l) = optMin (some t) (minOfList l) := rfl

theorem foldl_optMin_eq (l : List Nat) (acc : Option Nat) :
    l.foldl (fun m t => optMin m (some t)) acc = optMin acc (minOfList l) := by
  induction l generalizing acc with
  | nil => cases acc <;> rfl
  | cons t ts ih =>
    simp only [List.foldl_cons, ih, minOfList_cons, ← optMin_assoc]

theorem filtered_times (data : List GameRecord) :
    (data.filter fun r => natTruthy r.time_taken).filterMap (fun r => r.time_taken)
      = (data.filterMap fun r => r.time_taken).filter fun t => t != 0 := by
  induction data with
  | nil => rfl
  | cons r t ih =>
    cases hr : r.time_taken with
    | none =>
      have hc : natTruthy (none : Option Nat) = false := rfl
      simp only [List.filter_cons, List.filterMap_cons, hr, hc]
      simpa using ih
    | some v =>
      by_cases hv : v = 0
      · have hc : natTruthy (some v) = false := by simp [natTruthy, hv]
        have hv2 : (v != 0) = false := by simpa using hv
        simp only [List.filter_cons, List.filterMap_cons, hr, hc, hv2]
        exact ih
      · have hc : natTruthy (some v) = true := by simp [natTruthy, hv]
        have hv2 : (v != 0) = true := by simpa using hv
        simp only [List.filter_cons, List.filterMap_cons, hr, hc, hv2, if_true]
        simpa using ih

theorem foldl_record_times (l : List GameRecord) (acc : Option Nat) :
    l.foldl
        (fun m r =>
          match r.time_taken with
          | some t => optMin m (some t)
          | none => m)
        acc
      = (l.filterMap fun r => r.time_taken).foldl (fun m t => optMin m (some t)) acc := by
  induction l generalizing acc with
  | nil => rfl
  | cons r t ih =>
    cases hr : r.time_taken with
    | none =>
      simp only [List.foldl_cons, List.filterMap_cons, hr]
      exact ih acc
    | some v =>
      simp only [List.foldl_cons, List.filterMap_cons, hr]
      exact ih (optMin acc (some v))

theorem bestTimeFold_eq (data : List GameRecord) :
    bestTimeFold data = specBestTimeNonzero data := by
  unfold bestTimeFold specBestTimeNonzero
  rw [foldl_record_times, filtered_times, foldl_optMin_eq]
  rfl

theorem filter_truthy_all (data : List GameRecord)
    (h : ∀ r ∈ data, strTruthy r.completed_at = true) :
    (data.filter fun r => strTruthy r.completed_at) = data :=
  List.filter_eq_self.mpr h

/-! ### More state-machine helpers -/

theorem saveGameResult_game (w : World) (iso : String) (t : Nat) (ok : Bool) :
    (saveGameResult w iso t ok).game = w.game := by
  unfold saveGameResult
  split <;> rfl

theorem checkGameCompletion_game_fired (w : World) (t : Nat) (iso : String) (ok : Bool)
    (hall : allPlaced w.game.pieces = true) (hnc : w.game.gameCompleted = false) :
    (checkGameCompletion w t iso ok).game
      = { w.game with completionTime := some t, gameCompleted := true } := by
  rw [checkGameCompletion_fires w t iso ok hall hnc]
  exact saveGameResult_game _ _ _ _

theorem checkGameCompletion_db_fired (w : World) (t : Nat) (iso : String)
    (hall : allPlaced w.game.pieces = true) (hnc : w.game.gameCompleted = false) :
    (checkGameCompletion w t iso true).db
      = w.db ++ [resultRecord w.userId w.levelId iso t] := by
  rw [checkGameCompletion_fires w t iso true hall hnc]
  show (saveGameResult _ iso t true).db = _
  simp [saveGameResult]

theorem checkGameCompletion_notAll (w : World) (t : Nat) (iso : String) (ok : Bool)
    (hall : allPlaced w.game.pieces = false) :
    checkGameCompletion w t iso ok = w := by
  simp [checkGameCompletion, hall]

/-! ### Claim theorems -/

/-- C2: for every completed session with elapsed time `t` (a non-negative
integer) the persisted score is `max(1000 - t, 100)`; `t = 0` gives 1000,
`t = 900` gives 100, and every `t ≥ 900`, arbitrarily large, gives exactly
100. -/
theorem score_is_clamped_linear (w : World) (iso : String) (t : Nat) :
    (saveGameResult w iso t true).db
      = w.db ++ [{ user_id := w.userId, level_id := w.levelId, completed_at := some iso,
                   time_taken := some t, score := some (max (1000 - (t : Int)) 100) }] ∧
    computeScore 0 = 1000 ∧ computeScore 900 = 100 ∧
    ∀ s : Nat, 900 ≤ s → computeScore s = 100 := by
  refine ⟨rfl, rfl, rfl, ?_⟩
  intro s hs
  have h : (1000 - (s : Int)) ≤ 100 := by omega
  simpa [computeScore] using max_eq_right h

/-- Witness for C2 at elapsed time 2000. -/
theorem score_is_clamped_linear_witness : 900 ≤ 2000 ∧ computeScore 2000 = 100 :=
  ⟨by decide, (score_is_clamped_linear sampleDone "ts" 0).2.2.2 2000 (by decide)⟩

/-- C5: after initialization with a perfect-square piece count `n`, any
shuffled enumeration of the pieces has exactly `n` pieces, each unplaced in
the staging area, and the multiset of correct slots is exactly `0..n-1`. -/
theorem init_pieces_spec (n : Nat) (_hsq : ∃ k, n = k * k) (l : List PuzzlePiece)
    (hl : l.Perm (initializePuzzle n)) :
    l.length = n ∧
    (∀ p ∈ l, p.currentPosition = -1 ∧ p.isPlaced = false) ∧
    (l.map fun p => p.correctPosition).Perm (List.range n) := by
  refine ⟨?_, ?_, ?_⟩
  · rw [hl.length_eq]
    simp [initializePuzzle]
  · intro p hp
    have hp2 := hl.mem_iff.mp hp
    simp only [initializePuzzle, List.mem_map, List.mem_range] at hp2
    obtain ⟨i, _, rfl⟩ := hp2
    exact ⟨rfl, rfl⟩
  · have h2 := hl.map fun p => p.correctPosition
    have h3 : ((initializePuzzle n).map fun p => p.correctPosition) = List.range n := by
      unfold initializePuzzle
      rw [List.map_map]
      have hfn : ((fun p : PuzzlePiece => p.correctPosition) ∘ fun i =>
          ({ id := i, correctPosition := i, currentPosition := -1,
             isPlaced := false } : PuzzlePiece)) = fun i => i := rfl
      rw [hfn]
      simp
    exact h3 ▸ h2

/-- Witness for C5 at the perfect square 4 and the identity shuffle. -/
theorem init_pieces_spec_witness : (∃ k, 4 = k * k) ∧ (initializePuzzle 4).length = 4 :=
  ⟨⟨2, rfl⟩, (init_pieces_spec 4 ⟨2, rfl⟩ (initializePuzzle 4) (List.Perm.refl _)).1⟩

/-- C7: dropOnSlot is total and defensive: with no dragged piece the state is
left untouched, and with a dragged id that matches no piece the piece set is
left entirely unchanged (no eviction happens; only the drag marker clears). -/
theorem drop_defensive (g : GameState) (target : Int) :
    (g.draggedPiece = none → handleDrop g target = g) ∧
    (∀ d, g.draggedPiece = some d →
      findIdxO (fun p => p.id == d) g.pieces = none →
      (handleDrop g target).pieces = g.pieces ∧ (handleDrop g target).draggedPiece = none) := by
  constructor
  · intro h
    exact handleDrop_none g target h
  · intro d hd hf
    rw [handleDrop_noPiece g d target hd hf]
    exact ⟨rfl, rfl⟩

/-- Witness for C7: no drag in progress. -/
theorem drop_defensive_witness :
    sampleDone.game.draggedPiece = none ∧ handleDrop sampleDone.game 0 = sampleDone.game :=
  ⟨rfl, (drop_defensive sampleDone.game 0).1 rfl⟩

/-- C9: the completion predicate is vacuously true on the empty piece list, so
the mount-time check on the initial (empty) state completes the session, emits
a Result, and consumes the once-per-session guard: any later check on a
completed session is a no-op. -/
theorem empty_board_completes (u l nm iso : String) (t : Nat) (ok : Bool) :
    allPlaced (mountWorld u l nm).game.pieces = true ∧
    (checkGameCompletion (mountWorld u l nm) t iso ok).game.gameCompleted = true ∧
    (checkGameCompletion (mountWorld u l nm) t iso true).db = [resultRecord u l iso t] ∧
    (∀ w : World, w.game.gameCompleted = true → ∀ t2 iso2 ok2,
       checkGameCompletion w t2 iso2 ok2 = w) := by
  refine ⟨rfl, ?_, ?_, ?_⟩
  · cases ok <;> rfl
  · rfl
  · intro w hw t2 iso2 ok2
    exact checkGameCompletion_completed w t2 iso2 ok2 hw

/-- Witness for C9: the guard, once consumed, blocks a later check. -/
theorem empty_board_completes_witness :
    (checkGameCompletion sampleDone 1 "ts" true).game.gameCompleted = true ∧
    checkGameCompletion (checkGameCompletion sampleDone 1 "ts" true) 5 "ts2" true
      = checkGameCompletion sampleDone 1 "ts" true :=
  ⟨rfl, (empty_board_completes "u" "l" "n" "ts" 0 true).2.2.2
          (checkGameCompletion sampleDone 1 "ts" true) rfl 5 "ts2" true⟩

/-- C1: the completion transition fires exactly when every piece satisfies
`isPlaced && currentPosition == correctPosition` and the session is not yet
completed; it fires at most once: on a completed session the check is the
identity and no sequence of further placement interactions changes the emitted
Results. -/
theorem completion_fires_iff_once (w : World) (t : Nat) (iso : String) (ok : Bool) :
    (w.game.gameCompleted = false →
      ((checkGameCompletion w t iso ok).game.gameCompleted = true
        ↔ allPlaced w.game.pieces = true)) ∧
    (w.game.gameCompleted = false → allPlaced w.game.pieces = true →
      (checkGameCompletion w t iso true).db
        = w.db ++ [resultRecord w.userId w.levelId iso t]) ∧
    (w.game.gameCompleted = true → checkGameCompletion w t iso ok = w) ∧
    (w.game.gameCompleted = true → ∀ es : List GameEvent, (runEvents w es).db = w.db) := by
  refine ⟨?_, ?_, ?_, ?_⟩
  · intro hnc
    constructor
    · intro hfired
      by_cases hall : allPlaced w.game.pieces = true
      · exact hall
      · have hall2 : allPlaced w.game.pieces = false := by
          cases h : allPlaced w.game.pieces
          · rfl
          · exact absurd h hall
        rw [checkGameCompletion_notAll w t iso ok hall2, hnc] at hfired
        exact absurd hfired (by simp)
    · intro hall
      rw [checkGameCompletion_game_fired w t iso ok hall hnc]
  · intro hnc hall
    exact checkGameCompletion_db_fired w t iso hall hnc
  · intro h
    exact checkGameCompletion_completed w t iso ok h
  · intro h es
    exact (runEvents_completed w es h).2

/-- Witness for C1: a fresh all-correct board fires and persists one Result. -/
theorem completion_fires_iff_once_witness :
    sampleDone.game.gameCompleted = false ∧
    allPlaced sampleDone.game.pieces = true ∧
    (checkGameCompletion sampleDone 3 "ts" true).db
      = sampleDone.db ++ [resultRecord "u" "ha-long-bay" "ts" 3] :=
  ⟨rfl, by decide, (completion_fires_iff_once sampleDone 3 "ts" true).2.1 rfl (by decide)⟩

/-- C8: a failed Result insert after the completion transition leaves the
session state exactly as a successful one would: Completed status, completion
time and piece set are unchanged and not rolled back; the failure only adds a
notification, writes no row, and is not retried. -/
theorem save_failure_atomic (w : World) (t : Nat) (iso : String)
    (hall : allPlaced w.game.pieces = true) (hnc : w.game.gameCompleted = false) :
    (checkGameCompletion w t iso false).game.gameCompleted = true ∧
    (checkGameCompletion w t iso false).game.completionTime = some t ∧
    (checkGameCompletion w t iso false).game.pieces = w.game.pieces ∧
    (checkGameCompletion w t iso false).game = (checkGameCompletion w t iso true).game ∧
    (checkGameCompletion w t iso false).db = w.db ∧
    (checkGameCompletion w t iso false).toasts
      = w.toasts ++ ["Failed to save your progress", successToast w.levelName t] := by
  have hgame := checkGameCompletion_game_fired w t iso false hall hnc
  have hgame2 := checkGameCompletion_game_fired w t iso true hall hnc
  refine ⟨by rw [hgame], by rw [hgame], by rw [hgame], by rw [hgame, hgame2], ?_, ?_⟩
  · rw [checkGameCompletion_fires w t iso false hall hnc]
    show (saveGameResult _ iso t false).db = _
    simp [saveGameResult]
  · rw [checkGameCompletion_fires w t iso false hall hnc]
    show (saveGameResult _ iso t false).toasts ++ [successToast w.levelName t] = _
    simp [saveGameResult]

/-- Witness for C8 on a one-piece completed board. -/
theorem save_failure_atomic_witness :
    allPlaced sampleDone.game.pieces = true ∧
    sampleDone.game.gameCompleted = false ∧
    (checkGameCompletion sampleDone 7 "ts" false).game.gameCompleted = true :=
  ⟨by decide, rfl, (save_failure_atomic sampleDone 7 "ts" (by decide) rfl).1⟩

/-- C3: dropping dragged piece A on a slot occupied by a distinct piece B
gives A `currentPosition = target, isPlaced = true`, evicts B to
`currentPosition = -1, isPlaced = false`, leaves every other piece unchanged,
and leaves the slot A previously occupied empty — eviction to staging, never a
swap. -/
theorem drop_on_occupied (g : GameState) (d : Nat) (target : Int) (i j : Nat)
    (hd : g.draggedPiece = some d)
    (hi : findIdxO (fun p => p.id == d) g.pieces = some i)
    (hj : findIdxO (fun p => p.currentPosition == target) g.pieces = some j)
    (hij : i ≠ j) :
    ((handleDrop g target).pieces)[i]? = (g.pieces)[i]?.map (placePiece target) ∧
    ((handleDrop g target).pieces)[j]? = (g.pieces)[j]?.map evictPiece ∧
    (∀ k, k ≠ i → k ≠ j → ((handleDrop g target).pieces)[k]? = (g.pieces)[k]?) ∧
    (handleDrop g target).draggedPiece = none ∧
    (∀ pA, (g.pieces)[i]? = some pA →
       ((handleDrop g target).pieces)[i]?
         = some { pA with currentPosition := target, isPlaced := true }) ∧
    (∀ pB, (g.pieces)[j]? = some pB →
       ((handleDrop g target).pieces)[j]?
         = some { pB with currentPosition := -1, isPlaced := false }) ∧
    (slotUnique g.pieces →
      ∀ s0 : Int, 0 ≤ s0 → s0 ≠ target →
      ∀ pA, (g.pieces)[i]? = some pA → pA.currentPosition = s0 →
      ∀ (k : Nat) (q : PuzzlePiece),
        ((handleDrop g target).pieces)[k]? = some q → q.currentPosition ≠ s0) := by
  have key := handleDrop_occ_getQ g d target i j hd hi hj
  have hji : ¬ j = i := fun hc => hij hc.symm
  refine ⟨?_, ?_, ?_, ?_, ?_, ?_, ?_⟩
  · rw [key i, if_pos rfl, if_neg hij]
  · rw [key j, if_neg hji, if_pos rfl]
  · intro k hki hkj
    rw [key k, if_neg hki, if_neg hkj]
  · rw [handleDrop_occ g d target i j hd hi hj]
  · intro pA hpA
    rw [key i, if_pos rfl, if_neg hij, hpA]
    rfl
  · intro pB hpB
    rw [key j, if_neg hji, if_pos rfl, hpB]
    rfl
  · intro hu s0 hs0 hst pA hpA hpAs k q hq
    rw [key k] at hq
    by_cases hki : k = i
    · rw [if_pos hki, if_neg (hki ▸ hij)] at hq
      obtain ⟨q1, _, rfl⟩ := Option.map_eq_some'.mp hq
      simp only [placePiece]
      exact fun hc => hst (hc.symm)
    · rw [if_neg hki] at hq
      by_cases hkj : k = j
      · rw [if_pos hkj] at hq
        obtain ⟨q0, _, rfl⟩ := Option.map_eq_some'.mp hq
        simp only [evictPiece]
        intro hc
        omega
      · rw [if_neg hkj] at hq
        intro hc
        have := hu k i q pA hki hq hpA (by rw [hc, hpAs])
        omega

/-- Witness for C3 on a two-piece board: piece 0 dropped onto slot 2 held by
piece 1. -/
theorem drop_on_occupied_witness :
    findIdxO (fun p => p.id == 0) sampleDropState.pieces = some 0 ∧
    findIdxO (fun p => p.currentPosition == 2) sampleDropState.pieces = some 1 ∧
    ((handleDrop sampleDropState 2).pieces)[0]?
      = (sampleDropState.pieces)[0]?.map (placePiece 2) :=
  ⟨by decide, by decide,
   (drop_on_occupied sampleDropState 0 2 0 1 rfl (by decide) (by decide) (by decide)).1⟩

/-- C10: dropping the dragged piece onto the slot it already occupies
self-evicts and immediately re-places it: the piece ends at the target slot
with `isPlaced = true` and every other piece is unchanged. -/
theorem drop_on_own_slot (g : GameState) (d : Nat) (target : Int) (i : Nat)
    (hd : g.draggedPiece = some d)
    (hi : findIdxO (fun p => p.id == d) g.pieces = some i)
    (hj : findIdxO (fun p => p.currentPosition == target) g.pieces = some i) :
    ((handleDrop g target).pieces)[i]? = (g.pieces)[i]?.map (placePiece target) ∧
    (∀ k, k ≠ i → ((handleDrop g target).pieces)[k]? = (g.pieces)[k]?) ∧
    (∀ p, (g.pieces)[i]? = some p →
       ((handleDrop g target).pieces)[i]?
         = some { p with currentPosition := target, isPlaced := true }) := by
  have key := handleDrop_occ_getQ g d target i i hd hi hj
  refine ⟨?_, ?_, ?_⟩
  · rw [key i, if_pos rfl, if_pos rfl]
    cases (g.pieces)[i]? with
    | none => rfl
    | some p => rfl
  · intro k hki
    rw [key k, if_neg hki, if_neg hki]
  · intro p hp
    rw [key i, if_pos rfl, if_pos rfl, hp]
    rfl

/-- Witness for C10: the single piece sits at slot 5 and is dropped there. -/
theorem drop_on_own_slot_witness :
    findIdxO (fun p => p.id == 0) sampleSelfDrop.pieces = some 0 ∧
    findIdxO (fun p => p.currentPosition == 5) sampleSelfDrop.pieces = some 0 ∧
    ((handleDrop sampleSelfDrop 5).pieces)[0]?
      = (sampleSelfDrop.pieces)[0]?.map (placePiece 5) :=
  ⟨by decide, by decide,
   (drop_on_own_slot sampleSelfDrop 0 5 0 rfl (by decide) (by decide)).1⟩

/-- C4: the slot-uniqueness invariant — at most one piece per board slot — is
established by initialization under any shuffle, preserved by beginDrag and
dropOnSlot, and therefore holds in every state reachable by interactions from
a freshly initialized session. -/
theorem slot_uniqueness (n : Nat) (g : GameState) (pid : Nat) (target : Int)
    (w : World) (es : List GameEvent)
    (hg : slotUnique g.pieces)
    (hw : w.game.pieces.Perm (initializePuzzle n)) :
    (∀ l : List PuzzlePiece, l.Perm (initializePuzzle n) → slotUnique l) ∧
    slotUnique ((handleDragStart g pid).pieces) ∧
    slotUnique ((handleDrop g target).pieces) ∧
    slotUnique ((runEvents w es).game.pieces) :=
  ⟨fun l hl => slotUnique_init_perm n l hl, hg, slotUnique_handleDrop g target hg,
   slotUnique_runEvents w es (slotUnique_init_perm n _ hw)⟩

/-- Witness for C4: a two-piece session with one drop performed. -/
theorem slot_uniqueness_witness :
    sampleInitWorld.game.pieces.Perm (initializePuzzle 2) ∧
    slotUnique ((runEvents sampleInitWorld [GameEvent.drop 0 3 "ts" true]).game.pieces) :=
  ⟨List.Perm.refl _,
   (slot_uniqueness 2 sampleInitWorld.game 0 0 sampleInitWorld
      [GameEvent.drop 0 3 "ts" true]
      (slotUnique_init_perm 2 _ (List.Perm.refl _)) (List.Perm.refl _)).2.2.2⟩

/-- C6 counterexample: a single Result completed in 0 seconds carries the time
value 0, so the claimed bestTime is its minimum, 0; but the code's truthiness
filter (`record.time_taken` is falsy for 0) drops the row and `fetchUserStats`
reports no best time. -/
theorem stats_best_time_cex :
    specBestTime [cexRecord] = some 0 ∧
    (fetchUserStats [cexRecord]).best_time = none ∧
    (fetchUserStats [cexRecord]).best_time ≠ specBestTime [cexRecord] := by
  refine ⟨rfl, rfl, ?_⟩
  intro h
  have h2 : (none : Option Nat) = some 0 := h
  exact Option.noConfusion h2

/-- C6 amended: fetchStats on zero prior Results returns the all-zero stats;
on any set of well-formed Results (truthy `completed_at`) it returns the count
of Results, the sum of their scores, and the minimum of the nonzero time
values — `none` when no Result has a nonzero time. -/
theorem stats_aggregation (data : List GameRecord)
    (hwf : ∀ r ∈ data, strTruthy r.completed_at = true) :
    fetchUserStats [] = { puzzles_completed := 0, total_score := 0, best_time := none } ∧
    (fetchUserStats data).puzzles_completed = data.length ∧
    (fetchUserStats data).total_score = (data.map fun r => r.score.getD 0).sum ∧
    (fetchUserStats data).best_time = specBestTimeNonzero data := by
  refine ⟨rfl, ?_⟩
  rcases Decidable.em (0 < data.length) with hne | hne
  · have hthen : fetchUserStats data
        = { puzzles_completed := (data.filter fun r => strTruthy r.completed_at).length,
            total_score := data.foldl (fun s r => s + r.score.getD 0) 0,
            best_time := bestTimeFold data } := by
      unfold fetchUserStats
      rw [if_pos hne]
    refine ⟨?_, ?_, ?_⟩
    · rw [hthen]
      show (data.filter fun r => strTruthy r.completed_at).length = data.length
      rw [filter_truthy_all data hwf]
    · rw [hthen]
      show data.foldl (fun s r => s + r.score.getD 0) 0 = _
      rw [foldl_score_sum]
      simp
    · rw [hthen]
      exact bestTimeFold_eq data
  · have hz : data = [] := by
      cases data with
      | nil => rfl
      | cons a t => exact absurd (by simp) hne
    subst hz
    exact ⟨rfl, rfl, rfl⟩

/-- Witness for the amended C6: two Results with times 120 and 90 give
bestTime 90 and the sum of both scores. -/
theorem stats_aggregation_witness :
    (∀ r ∈ sampleRecords, strTruthy r.completed_at = true) ∧
    (fetchUserStats sampleRecords).best_time = specBestTimeNonzero sampleRecords ∧
    specBestTimeNonzero sampleRecords = some 90 ∧
    (fetchUserStats sampleRecords).total_score
      = (sampleRecords.map fun r => r.score.getD 0).sum :=
  ⟨by decide, (stats_aggregation sampleRecords (by decide)).2.2.2, by decide,
   (stats_aggregation sampleRecords (by decide)).2.2.1⟩
